import Mathlib

/-!
Verification development for the Proxy Inventory & Connectivity Testing Engine.

This file is a shallow embedding of the TypeScript sources:
  * `components/ConfigManager.tsx` — link codec (`parseConfig`), mock prober
    (`testConfig`), rule engine (`evaluateRule`), inventory insertion
    (`addProcessedConfigs`), query pipeline (`filteredAndSortedConfigs`) and
    the bounded-concurrency manual test scheduler
    (`startTesting` / `runNext` / `stopTesting`);
  * the app root component — its own `addProcessedConfigs` used by the
    share-link import path;
  * `components/Settings.tsx` — default rule construction (`handleAddRule`).

JavaScript platform primitives used by the sources (`atob`, `JSON.parse`,
`new URL`, `decodeURIComponent`, `Number`, `Math.round`, `String.includes`,
`toLowerCase`) are modelled by executable Lean functions below.  Fallible
primitives (ones that can throw) return `Option`; `none` models a thrown
exception.  The models cover the fragments these sources exercise:

  * `jsonParse` parses flat JSON objects whose values are strings, decimal
    integers, booleans or null — the shape of `vmess://` payloads.  Nested
    values, floats and arrays are out of the modelled fragment.
  * `urlParse` models the WHATWG `new URL` constructor for absolute URLs of
    the `scheme://[userinfo@]host[:port][/path][?query][#fragment]` form;
    other URL shapes are treated as a parse failure, and IPv6 host brackets
    and host canonicalisation are not modelled.  No claim depends on these
    corners.
  * Geolocation enrichment inside `testConfig` (an external `fetch`) is not
    modelled; no claim refers to the geo fields.

JS `undefined` is modelled by `none` of an `Option` field, and a JS `NaN`
number by `none : Option Int` where a field can receive one.
-/

namespace ProxyTester

/-- Protocol enumeration (`Protocol` in types.ts). -/
inductive Protocol where
  | Vmess | Vless | Shadowsocks | Trojan | Hidify | Unknown
deriving DecidableEq, Repr

/-- Display string of a protocol value (the TS enum values are strings). -/
def protoDisplay : Protocol → String
  | .Vmess => "Vmess"
  | .Vless => "Vless"
  | .Shadowsocks => "Shadowsocks"
  | .Trojan => "Trojan"
  | .Hidify => "Hidify"
  | .Unknown => "Unknown"

/-- Status enumeration (`Status` in types.ts). -/
inductive Status where
  | Active | Slow | Inactive | Testing | Untested
deriving DecidableEq, Repr

/-- The `ProxyConfig` record from types.ts.  `host` is `Option String`
because the vmess decode path can store JS `undefined` there; `port` is
`Option Int` with `none` modelling JS `NaN`; `group` is genuinely optional
in the source. -/
structure ProxyConfig where
  id : String
  name : String
  protocol : Protocol
  host : Option String
  port : Option Int
  ip : String
  country : String
  countryCode : String
  latency : Int
  status : Status
  score : Int
  lastTested : String
  rawConfig : String
  latencyHistory : List Int
  group : Option String
  speed : Int
deriving DecidableEq, Repr

/-! ## Models of JavaScript platform primitives -/

/-- JS `Math.round`: round half toward positive infinity. -/
def jsRound (q : ℚ) : Int := Int.floor (q + 1/2)

/-- Decimal digit accumulation; `none` when the char list is empty or holds
a non-digit. -/
def decDigits (cs : List Char) : Option Nat :=
  if cs.isEmpty then none
  else cs.foldl
    (fun acc c => acc.bind fun n => if c.isDigit then some (10 * n + (c.toNat - 48)) else none)
    (some 0)

/-- JS whitespace as recognised by `trim` and the `Number` coercion
(ASCII fragment). -/
def isJsWs (c : Char) : Bool :=
  c = ' ' ∨ c = '\t' ∨ c = '\n' ∨ c = '\r' ∨ c.toNat = 11 ∨ c.toNat = 12

/-- JS `String.prototype.trim`. -/
def jsTrim (s : String) : String :=
  String.mk (((s.data.dropWhile isJsWs).reverse.dropWhile isJsWs).reverse)

/-- The decimal-integer fragment of the JS `Number(string)` coercion:
whitespace-trimmed, empty string is `0`, optional sign followed by decimal
digits; anything else is `NaN` (`none`).  Hex/float literals are outside
the modelled fragment (the sources only coerce ports, latencies and rule
values). -/
def jsStringToNumber (s : String) : Option Int :=
  let t := jsTrim s
  if t = "" then some 0
  else
    match t.toList with
    | '-' :: rest => (decDigits rest).map fun n => -(n : Int)
    | '+' :: rest => (decDigits rest).map fun n => (n : Int)
    | cs => (decDigits cs).map fun n => (n : Int)

/-- JS `String.prototype.toLowerCase` (modelled on the character list,
extensionally the same as `String.toLower`). -/
def jsToLower (s : String) : String := String.mk (s.data.map Char.toLower)

/-- JS `String.prototype.startsWith` (modelled on the character lists,
extensionally the same test). -/
def jsStartsWith (s pre : String) : Bool := pre.data.isPrefixOf s.data

/-- JS `String.prototype.includes` (substring test). -/
def jsIncludes (s sub : String) : Bool :=
  (List.range (s.length + 1)).any fun i => sub.isPrefixOf (s.drop i)

/-- Value of a base64 alphabet character, `none` for anything else. -/
def b64Val (c : Char) : Option Nat :=
  if 'A' ≤ c ∧ c ≤ 'Z' then some (c.toNat - 65)
  else if 'a' ≤ c ∧ c ≤ 'z' then some (c.toNat - 97 + 26)
  else if '0' ≤ c ∧ c ≤ '9' then some (c.toNat - 48 + 52)
  else if c = '+' then some 62
  else if c = '/' then some 63
  else none

/-- Turn a list of 6-bit values into bytes, 4 values to 3 bytes, with the
forgiving-base64 tail rules (2 leftover values give 1 byte, 3 give 2, 1 is
an error). -/
def b64Chunks : List Nat → Option (List Nat)
  | [] => some []
  | [a, b] => some [a * 4 + b / 16]
  | [a, b, c] => some [a * 4 + b / 16, (b % 16) * 16 + c / 4]
  | a :: b :: c :: d :: rest =>
      (b64Chunks rest).map fun tail =>
        (a * 4 + b / 16) :: ((b % 16) * 16 + c / 4) :: ((c % 4) * 64 + d) :: tail
  | [_] => none

/-- ASCII whitespace ignored by forgiving base64. -/
def isB64Ws (c : Char) : Bool :=
  c = ' ' ∨ c = '\t' ∨ c = '\n' ∨ c = '\r' ∨ c.toNat = 12

/-- JS `atob` (forgiving base64 decode).  The decoded bytes become the
characters of the result string (latin-1 view), exactly as `atob` produces
a binary string.  `none` models the thrown `InvalidCharacterError`. -/
def atobOpt (s : String) : Option String :=
  let cs := s.toList.filter fun c => ¬ isB64Ws c
  let cs :=
    if cs.length % 4 = 0 then
      match cs.reverse with
      | '=' :: '=' :: rest => rest.reverse
      | '=' :: rest => rest.reverse
      | _ => cs
    else cs
  if cs.length % 4 = 1 then none
  else do
    let vals ← cs.mapM b64Val
    let bytes ← b64Chunks vals
    some (String.mk (bytes.map Char.ofNat))

/-- Hexadecimal digit value. -/
def hexVal (c : Char) : Option Nat :=
  if '0' ≤ c ∧ c ≤ '9' then some (c.toNat - 48)
  else if 'a' ≤ c ∧ c ≤ 'f' then some (c.toNat - 97 + 10)
  else if 'A' ≤ c ∧ c ≤ 'F' then some (c.toNat - 65 + 10)
  else none

/-- UTF-8 encode one character (code point to bytes). -/
def charUtf8 (c : Char) : List Nat :=
  let n := c.toNat
  if n < 128 then [n]
  else if n < 2048 then [192 + n / 64, 128 + n % 64]
  else if n < 65536 then [224 + n / 4096, 128 + (n / 64) % 64, 128 + n % 64]
  else [240 + n / 262144, 128 + (n / 4096) % 64, 128 + (n / 64) % 64, 128 + n % 64]

/-- Is a byte a UTF-8 continuation byte. -/
def utf8Cont (b : Nat) : Bool := 128 ≤ b ∧ b < 192

/-- Strict UTF-8 decoding of a byte list (rejecting overlong forms and
surrogate code points), used to model the UTF-8 layer of
`decodeURIComponent`. -/
def utf8Decode : List Nat → Option (List Char)
  | [] => some []
  | b :: rest =>
    if b < 128 then (utf8Decode rest).map (Char.ofNat b :: ·)
    else if 194 ≤ b ∧ b ≤ 223 then
      match rest with
      | c1 :: rest2 =>
        if utf8Cont c1 then
          (utf8Decode rest2).map (Char.ofNat ((b - 192) * 64 + (c1 - 128)) :: ·)
        else none
      | [] => none
    else if 224 ≤ b ∧ b ≤ 239 then
      match rest with
      | c1 :: c2 :: rest2 =>
        let lo1 := if b = 224 then 160 else 128
        let hi1 := if b = 237 then 159 else 191
        if lo1 ≤ c1 ∧ c1 ≤ hi1 ∧ utf8Cont c2 then
          (utf8Decode rest2).map
            (Char.ofNat ((b - 224) * 4096 + (c1 - 128) * 64 + (c2 - 128)) :: ·)
        else none
      | _ => none
    else if 240 ≤ b ∧ b ≤ 244 then
      match rest with
      | c1 :: c2 :: c3 :: rest2 =>
        let lo1 := if b = 240 then 144 else 128
        let hi1 := if b = 244 then 143 else 191
        if lo1 ≤ c1 ∧ c1 ≤ hi1 ∧ utf8Cont c2 ∧ utf8Cont c3 then
          (utf8Decode rest2).map
            (Char.ofNat ((b - 240) * 262144 + (c1 - 128) * 4096 + (c2 - 128) * 64 + (c3 - 128)) :: ·)
        else none
      | _ => none
    else none

/-- Expand a percent-encoded character list to bytes: `%XX` becomes the
byte `XX` (a malformed escape is an error), any other character contributes
its UTF-8 bytes. -/
def pctToBytes : List Char → Option (List Nat)
  | [] => some []
  | '%' :: a :: b :: rest =>
    match hexVal a, hexVal b with
    | some x, some y => (pctToBytes rest).map ((16 * x + y) :: ·)
    | _, _ => none
  | '%' :: _ => none
  | c :: rest => (pctToBytes rest).map (charUtf8 c ++ ·)

/-- JS `decodeURIComponent`: percent-escapes become bytes, the byte stream
must be valid UTF-8; `none` models the thrown `URIError`. -/
def percentDecode (s : String) : Option String := do
  let bs ← pctToBytes s.toList
  let cs ← utf8Decode bs
  some (String.mk cs)

/-! ## Model of the WHATWG URL constructor (fragment used by the sources) -/

/-- The `new URL(...)` fields the sources read. `fragment` is `url.hash`
without its leading hash mark (empty when absent, which coincides with
`url.hash.substring(1)` in all cases the code reads). -/
structure URLParts where
  scheme : String
  hostname : String
  port : String
  fragment : String
deriving DecidableEq, Repr

/-- Split a character list at the first occurrence of `c`; the second
component is `none` when `c` does not occur. -/
def splitFirst (c : Char) : List Char → List Char × Option (List Char)
  | [] => ([], none)
  | x :: xs =>
    if x = c then ([], some xs)
    else
      let (pre, post) := splitFirst c xs
      (x :: pre, post)

/-- Split a character list at the last occurrence of `c` (`none` when `c`
does not occur). -/
def splitLast (c : Char) (s : List Char) : Option (List Char × List Char) :=
  match splitFirst c s.reverse with
  | (_, none) => none
  | (revAfter, some revBefore) => some (revBefore.reverse, revAfter.reverse)

/-- Valid non-initial scheme character. -/
def isSchemeChar (c : Char) : Bool := c.isAlphanum ∨ c = '+' ∨ c = '-' ∨ c = '.'

/-- Model of `new URL(raw)` restricted to the
`scheme://[userinfo@]host[:port][/...][?...][#...]` shape; `none` models
the thrown `TypeError`. -/
def urlParse (raw : String) : Option URLParts :=
  let cs := raw.toList
  let (beforeHash, fragPart) := splitFirst '#' cs
  let frag := fragPart.getD []
  let (beforeQuery, _) := splitFirst '?' beforeHash
  match splitFirst ':' beforeQuery with
  | (_, none) => none
  | (schemeCs, some rest) =>
    if schemeCs.isEmpty then none
    else if ¬ (schemeCs.headD 'a').isAlpha then none
    else if ¬ schemeCs.all isSchemeChar then none
    else
      match rest with
      | '/' :: '/' :: afterSS =>
        let (authority, _) := splitFirst '/' afterSS
        let hostport :=
          match splitLast '@' authority with
          | some (_, hp) => hp
          | none => authority
        let hostPort : Option (List Char × String) :=
          match splitLast ':' hostport with
          | some (h, p) =>
            if p.isEmpty then some (h, "")
            else
              match decDigits p with
              | some n => if n ≤ 65535 then some (h, toString n) else none
              | none => none
          | none => some (hostport, "")
        match hostPort with
        | none => none
        | some (h, p) =>
          some { scheme := jsToLower (String.mk schemeCs), hostname := String.mk h,
                 port := p, fragment := String.mk frag }
      | _ => none

/-! ## Model of JSON.parse (flat-object fragment) -/

/-- Primitive JSON values occurring in vmess payloads. -/
inductive JsonPrim where
  | jstr (s : String)
  | jint (n : Int)
  | jbool (b : Bool)
  | jnull
deriving DecidableEq, Repr

/-- A parsed flat JSON object. -/
abbrev JsonObj := List (String × JsonPrim)

/-- Skip JSON whitespace. -/
def skipWs : List Char → List Char
  | c :: cs => if c = ' ' ∨ c = '\t' ∨ c = '\n' ∨ c = '\r' then skipWs cs else c :: cs
  | [] => []

/-- Parse the body of a JSON string after its opening quote; yields the
content characters and the remainder after the closing quote.  The fuel
argument only bounds the recursion; `length + 1` is always sufficient
because each step consumes at least one character. -/
def parseJStringAux : Nat → List Char → Option (List Char × List Char)
  | 0, _ => none
  | _, [] => none
  | fuel + 1, c :: cs =>
    if c = '"' then some ([], cs)
    else if c = '\\' then
      match cs with
      | [] => none
      | e :: cs2 =>
        let esc : Option (Char × List Char) :=
          if e = '"' then some ('"', cs2)
          else if e = '\\' then some ('\\', cs2)
          else if e = '/' then some ('/', cs2)
          else if e = 'n' then some ('\n', cs2)
          else if e = 't' then some ('\t', cs2)
          else if e = 'r' then some ('\r', cs2)
          else if e = 'b' then some (Char.ofNat 8, cs2)
          else if e = 'f' then some (Char.ofNat 12, cs2)
          else if e = 'u' then
            match cs2 with
            | h1 :: h2 :: h3 :: h4 :: cs3 =>
              match hexVal h1, hexVal h2, hexVal h3, hexVal h4 with
              | some a, some b, some c2, some d =>
                some (Char.ofNat (a * 4096 + b * 256 + c2 * 16 + d), cs3)
              | _, _, _, _ => none
            | _ => none
          else none
        match esc with
        | some (ch, rest) => (parseJStringAux fuel rest).map fun (l, r) => (ch :: l, r)
        | none => none
    else if c.toNat < 32 then none
    else (parseJStringAux fuel cs).map fun (l, r) => (c :: l, r)

/-- Consume one or more decimal digits. -/
def parseJDigits (cs : List Char) : Option (Nat × List Char) :=
  let digits := cs.takeWhile Char.isDigit
  if digits.isEmpty then none
  else some (digits.foldl (fun a c => a * 10 + (c.toNat - 48)) 0, cs.dropWhile Char.isDigit)

/-- After an integer literal the next character must not extend it into a
float or exponent (floats are outside the modelled fragment). -/
def jnumOk : List Char → Bool
  | c :: _ => ¬ (c = '.' ∨ c = 'e' ∨ c = 'E')
  | [] => true

/-- Parse one primitive JSON value. -/
def parseJValue : List Char → Option (JsonPrim × List Char)
  | '"' :: rest => (parseJStringAux (rest.length + 1) rest).map fun (l, r) => (.jstr (String.mk l), r)
  | '-' :: rest =>
    match parseJDigits rest with
    | some (n, r) => if jnumOk r then some (.jint (-(n : Int)), r) else none
    | none => none
  | 't' :: 'r' :: 'u' :: 'e' :: r => some (.jbool true, r)
  | 'f' :: 'a' :: 'l' :: 's' :: 'e' :: r => some (.jbool false, r)
  | 'n' :: 'u' :: 'l' :: 'l' :: r => some (.jnull, r)
  | c :: rest =>
    if c.isDigit then
      match parseJDigits (c :: rest) with
      | some (n, r) => if jnumOk r then some (.jint (n : Int), r) else none
      | none => none
    else none
  | [] => none

/-- Parse the members of a JSON object (at least one), consuming through
the closing brace.  Fuel bounds the number of members. -/
def parseMembers : Nat → List Char → Option (JsonObj × List Char)
  | 0, _ => none
  | fuel + 1, cs =>
    match skipWs cs with
    | '"' :: rest =>
      match parseJStringAux (rest.length + 1) rest with
      | none => none
      | some (keyCs, r1) =>
        match skipWs r1 with
        | ':' :: r3 =>
          match parseJValue (skipWs r3) with
          | none => none
          | some (v, r4) =>
            match skipWs r4 with
            | ',' :: r6 =>
              (parseMembers fuel r6).map fun (o, rem) => ((String.mk keyCs, v) :: o, rem)
            | '}' :: r6 => some ([(String.mk keyCs, v)], r6)
            | _ => none
        | _ => none
    | _ => none

/-- Model of `JSON.parse` restricted to flat objects with primitive
values — the shape of vmess payloads.  `none` models the thrown
`SyntaxError` (and any JSON outside the modelled fragment). -/
def jsonParse (s : String) : Option JsonObj :=
  match skipWs s.toList with
  | '{' :: rest =>
    match skipWs rest with
    | '}' :: r2 => if (skipWs r2).isEmpty then some [] else none
    | _ =>
      match parseMembers (rest.length + 1) rest with
      | some (o, rem) => if (skipWs rem).isEmpty then some o else none
      | none => none
  | _ => none

/-- JS property access on the parsed object (`data.ps` etc.); duplicate
keys resolve to the last occurrence, as in `JSON.parse`. -/
def jsGet (o : JsonObj) (k : String) : Option JsonPrim := o.reverse.lookup k

/-- JS `Number(v)` on a possibly-absent JSON value; `none` is `NaN`
(in particular `Number(undefined)`). -/
def jsToNumber : Option JsonPrim → Option Int
  | none => none
  | some (.jint n) => some n
  | some .jnull => some 0
  | some (.jbool b) => some (if b then 1 else 0)
  | some (.jstr s) => jsStringToNumber s

/-- JS string view of a JSON primitive. -/
def jsDisplay : JsonPrim → String
  | .jstr s => s
  | .jint n => toString n
  | .jbool b => if b then "true" else "false"
  | .jnull => "null"

/-- JS truthiness of a possibly-absent JSON value. -/
def jsTruthy : Option JsonPrim → Bool
  | none => false
  | some (.jstr s) => s ≠ ""
  | some (.jint n) => n ≠ 0
  | some (.jbool b) => b
  | some .jnull => false

/-- Value stored into `host` from `data.add`: absent stays `undefined`
(`none`); a present value is kept (modelled via its string view, faithful
for the string-typed payloads the codec is written for). -/
def jsHostVal : Option JsonPrim → Option String
  | none => none
  | some v => some (jsDisplay v)

/-! ## Link codec (`parseConfig` in ConfigManager.tsx) -/

/-- The partial record returned by `parseConfig`.  An outer `none` means
the key is absent from the returned object (so a merge keeps the default);
`some` values carry possibly-`undefined` / `NaN` contents. -/
structure ParsedFields where
  protocol : Option Protocol := none
  name : Option String := none
  host : Option (Option String) := none
  port : Option (Option Int) := none
deriving DecidableEq, Repr

/-- The catch-all placeholder returned on any unknown prefix or parse
exception. -/
def placeholderParsed : ParsedFields :=
  { protocol := some .Unknown, name := some "Unnamed Config",
    host := some (some "unknown.host"), port := some (some 0) }

/-- Protocol from a URL scheme string, as in the vless/ss/trojan branch. -/
def protoOfScheme (s : String) : Protocol :=
  if s = "vless" then .Vless
  else if s = "ss" then .Shadowsocks
  else if s = "trojan" then .Trojan
  else .Unknown

/-- The try-block of `parseConfig`; `none` is both a fall-through (unknown
prefix) and a caught exception, which the source maps to the same
placeholder. -/
def parseConfigAux (raw : String) : Option ParsedFields :=
  if jsStartsWith raw "vmess://" then do
    let decoded ← atobOpt (raw.drop 8)
    let data ← jsonParse decoded
    some { protocol := some .Vmess,
           name := some (if jsTruthy (jsGet data "ps")
                         then jsDisplay ((jsGet data "ps").getD .jnull)
                         else "Vmess Config"),
           host := some (jsHostVal (jsGet data "add")),
           port := some (jsToNumber (jsGet data "port")) }
  else if jsStartsWith raw "vless://" ∨ jsStartsWith raw "ss://" ∨ jsStartsWith raw "trojan://" then do
    let url ← urlParse raw
    let protocol := protoOfScheme url.scheme
    let nm ← percentDecode url.fragment
    some { protocol := some protocol,
           name := some (if nm = "" then protoDisplay protocol ++ " Config" else nm),
           host := some (some url.hostname),
           port := some (jsStringToNumber url.port) }
  else none

/-- `parseConfig`: total by construction, exactly as the source never lets
an exception escape. -/
def parseConfig (raw : String) : ParsedFields :=
  (parseConfigAux raw).getD placeholderParsed

/-! ## Inventory insertion (`addProcessedConfigs` in ConfigManager.tsx) -/

/-- The object-literal defaults in the `addProcessedConfigs` map body. -/
def mkNewConfig (idStr raw : String) : ProxyConfig :=
  { id := idStr, name := "New Config", protocol := .Unknown,
    host := some "N/A", port := some 0, ip := "N/A", country := "Unknown",
    countryCode := "UNKNOWN", latency := -1, status := .Untested, score := 0,
    lastTested := "Never", rawConfig := raw, latencyHistory := [],
    group := none, speed := 0 }

/-- Spread `{...defaults, ...parsed}`: a key present in `parsed` overrides
the default even when its value is `undefined` or `NaN`. -/
def mergeParsed (base : ProxyConfig) (p : ParsedFields) : ProxyConfig :=
  { base with
    protocol := p.protocol.getD base.protocol,
    name := p.name.getD base.name,
    host := p.host.getD base.host,
    port := p.port.getD base.port }

/-- The filter step: keep raws that are non-blank and not already present
in the inventory. -/
def newRawFilter (existingRaws : List String) (raws : List String) : List String :=
  raws.filter fun raw => jsTrim raw ≠ "" ∧ ¬ existingRaws.contains raw

/-- `addProcessedConfigs` (ConfigManager): the list of freshly built
records for one batch.  Fresh `uuidv4` ids are modelled by the position
index rendered as a string. -/
def cmAddProcessedConfigs (configs : List ProxyConfig) (raws : List String) : List ProxyConfig :=
  let existing := configs.map (·.rawConfig)
  (newRawFilter existing raws).enum.map fun (i, raw) =>
    mergeParsed (mkNewConfig (toString i) raw) (parseConfig raw)

/-- Inventory after one batch: `setConfigs(prev => [...prev, ...newConfigs])`. -/
def addBatch (configs : List ProxyConfig) (raws : List String) : List ProxyConfig :=
  configs ++ cmAddProcessedConfigs configs raws

/-! ## The app-root `addProcessedConfigs` (share-link import path) -/

/-- The simplified per-item parser inside the app-root
`addProcessedConfigs` (protocol sniffing only; cannot throw). -/
def appParseConfig (raw : String) : ParsedFields :=
  if jsStartsWith raw "vmess://" then { protocol := some .Vmess }
  else if jsStartsWith raw "vless://" then { protocol := some .Vless }
  else if jsStartsWith raw "ss://" then { protocol := some .Shadowsocks }
  else if jsStartsWith raw "trojan://" then { protocol := some .Trojan }
  else { protocol := some .Unknown }

/-- `raw.replace(/^ss:\x2f\x2f/, 'http:\x2f\x2f')`. -/
def ssToHttp (raw : String) : String :=
  if jsStartsWith raw "ss://" then "http://" ++ raw.drop 5 else raw

/-- One map-body iteration of the app-root `addProcessedConfigs`.  Unlike
the ConfigManager codec, `new URL` and `decodeURIComponent` run outside
any try/catch here, so their failures escape as `Except.error`. -/
def appMkConfig (idStr raw : String) : Except String ProxyConfig := do
  let parsed := appParseConfig raw
  let url ← match urlParse (ssToHttp raw) with
    | some u => Except.ok u
    | none => Except.error "TypeError: Invalid URL"
  let nm ← match percentDecode url.fragment with
    | some s => Except.ok s
    | none => Except.error "URIError: URI malformed"
  let base := { mkNewConfig idStr raw with name := if nm = "" then "New Config" else nm }
  Except.ok (mergeParsed base parsed)

/-- The app-root `addProcessedConfigs`: an exception thrown by any item
aborts the whole `.map`, so the entire batch is lost (`Except.error`). -/
def appAddProcessedConfigs (configs : List ProxyConfig) (raws : List String) :
    Except String (List ProxyConfig) :=
  let existing := configs.map (·.rawConfig)
  (newRawFilter existing raws).enum.mapM fun (i, raw) => appMkConfig (toString i) raw

/-! ## The mock prober (`testConfig` in ConfigManager.tsx) -/

/-- The fields of the object `testConfig` resolves with (geo enrichment,
an external fetch, is not modelled; no claim touches the geo fields). -/
structure TestOutcome where
  status : Status
  latency : Int
  score : Int
  speed : Int
  latencyHistory : List Int
deriving DecidableEq, Repr

/-- `testConfig` with its random draws made explicit: `latRand` is
`Math.floor(Math.random() * 2000)` (so the measured latency is
`50 + latRand`), `failRand` is the `Math.random() > 0.8` draw, and
`speedRand` is the jitter draw in `[0, 1)`. -/
def testConfigModel (config : ProxyConfig) (timeout : Int) (latRand : Nat)
    (failRand : Bool) (speedRand : ℚ) : TestOutcome :=
  let testLatency : Int := 50 + latRand
  if testLatency > timeout ∨ failRand = true then
    { status := .Inactive, latency := -1, score := 0, speed := 0,
      latencyHistory := ((-1) :: config.latencyHistory).take 10 }
  else
    let status := if testLatency > 1000 then Status.Slow else Status.Active
    let score := max 0 (jsRound (100 - (testLatency : ℚ) / 20))
    let baseSpeed : Int := max 50 (2000 - testLatency)
    let speed := jsRound ((baseSpeed : ℚ) + (speedRand * baseSpeed * (1/5) - baseSpeed * (1/10)))
    { status := status, latency := testLatency, score := score, speed := speed,
      latencyHistory := (testLatency :: config.latencyHistory).take 10 }

/-- Merging a probe result into a record:
`{ ...c, ...result, lastTested: ... }`. -/
def applyOutcome (c : ProxyConfig) (o : TestOutcome) (time : String) : ProxyConfig :=
  { c with status := o.status, latency := o.latency, score := o.score,
           speed := o.speed, latencyHistory := o.latencyHistory, lastTested := time }

/-- The random draws and completion time of one probe. -/
structure ProbeParams where
  latRand : Nat
  failRand : Bool
  speedRand : ℚ
  time : String
deriving DecidableEq

/-- One completed-and-applied probe on a record. -/
def probeStep (timeout : Int) (c : ProxyConfig) (p : ProbeParams) : ProxyConfig :=
  applyOutcome c (testConfigModel c timeout p.latRand p.failRand p.speedRand) p.time

/-- A sequence of completed probes applied to one record. -/
def runProbes (timeout : Int) (c : ProxyConfig) (ps : List ProbeParams) : ProxyConfig :=
  ps.foldl (probeStep timeout) c

/-- The history sample a probe contributes: the failure sentinel `-1`, or
the measured latency. -/
def probeSample (timeout : Int) (p : ProbeParams) : Int :=
  if (50 + p.latRand : Int) > timeout ∨ p.failRand = true then -1 else 50 + p.latRand

/-! ## Rule engine (`evaluateRule` in ConfigManager.tsx) -/

/-- `RuleField` from types.ts. -/
inductive RuleField where
  | name | protocol | host | country | latency | score | speed | group | rawConfig
deriving DecidableEq, Repr

/-- `RuleOperator` from types.ts. -/
inductive RuleOperator where
  | contains | not_contains | equals | not_equals | greater_than | less_than
deriving DecidableEq, Repr

/-- A rule value is a string or a number (`value: string | number`). -/
inductive RuleValue where
  | num (n : Int)
  | str (s : String)
deriving DecidableEq, Repr

/-- A classification rule (the `id` field plays no role in evaluation). -/
structure Rule where
  field : RuleField
  operator : RuleOperator
  value : RuleValue
deriving DecidableEq, Repr

/-- Is `config[rule.field]` the JS value `undefined`. -/
def fieldUndefined (c : ProxyConfig) : RuleField → Bool
  | .host => c.host.isNone
  | .group => c.group.isNone
  | _ => false

/-- The record's string view of a string-typed field (defined fields only). -/
def strFieldVal (c : ProxyConfig) : RuleField → String
  | .name => c.name
  | .protocol => protoDisplay c.protocol
  | .host => c.host.getD ""
  | .country => c.country
  | .group => c.group.getD ""
  | .rawConfig => c.rawConfig
  | _ => ""

/-- `Number(rule.value)`. -/
def jsNumOfRuleValue : RuleValue → Option Int
  | .num n => some n
  | .str s => jsStringToNumber s

/-- `String(rule.value)`. -/
def jsStrOfRuleValue : RuleValue → String
  | .num n => toString n
  | .str s => s

/-- Is the rule field one of the numeric fields. -/
def isNumField : RuleField → Bool
  | .latency | .score | .speed => true
  | _ => false

/-- Is the rule field one of the string fields. -/
def isStrField : RuleField → Bool
  | .name | .protocol | .host | .country | .group | .rawConfig => true
  | _ => false

/-- `evaluateRule(config, rule)`. -/
def evaluateRule (c : ProxyConfig) (r : Rule) : Bool :=
  if fieldUndefined c r.field then false
  else if isNumField r.field then
    let valA : Int :=
      match r.field with
      | .latency => c.latency
      | .score => c.score
      | _ => c.speed
    match jsNumOfRuleValue r.value with
    | none => false
    | some valB =>
      match r.operator with
      | .equals => valA == valB
      | .not_equals => valA != valB
      | .greater_than => valA > valB
      | .less_than => valA < valB
      | _ => false
  else if isStrField r.field then
    let valA := jsToLower (strFieldVal c r.field)
    let valB := jsToLower (jsStrOfRuleValue r.value)
    match r.operator with
    | .contains => jsIncludes valA valB
    | .not_contains => ¬ jsIncludes valA valB
    | .equals => valA == valB
    | .not_equals => valA != valB
    | _ => false
  else false

/-- A smart group (id and color play no role in matching). -/
structure SmartGroup where
  name : String
  rules : List Rule
deriving DecidableEq, Repr

/-- Membership: `sg.rules.every(rule => evaluateRule(c, rule))`. -/
def smartGroupMatches (c : ProxyConfig) (sg : SmartGroup) : Bool :=
  sg.rules.all (evaluateRule c)

/-- The rule created by `handleAddRule` in Settings.tsx:
`{ field: 'latency', operator: 'less_than', value: 300 }`. -/
def defaultNewRule : Rule :=
  { field := .latency, operator := .less_than, value := .num 300 }

/-! ## Query-pipeline latency sort (`filteredAndSortedConfigs`) -/

/-- The latency comparator key: `a.latency === -1 ? Infinity : a.latency`. -/
def latKey (c : ProxyConfig) : WithTop Int :=
  if c.latency = -1 then ⊤ else (c.latency : WithTop Int)

/-- Ascending latency order from the comparator (the comparator returns a
non-positive number exactly when `latKey a ≤ latKey b`). -/
def latAscLE (a b : ProxyConfig) : Bool := decide (latKey a ≤ latKey b)

/-- Descending latency order from the comparator. -/
def latDescLE (a b : ProxyConfig) : Bool := decide (latKey b ≤ latKey a)

/-- The pipeline's ascending latency sort (JS `Array.prototype.sort` is a
stable comparator sort; modelled by stable merge sort). -/
def sortByLatencyAsc (l : List ProxyConfig) : List ProxyConfig := l.mergeSort latAscLE

/-- The pipeline's descending latency sort. -/
def sortByLatencyDesc (l : List ProxyConfig) : List ProxyConfig := l.mergeSort latDescLE

/-! ## Manual test scheduler (`startTesting`, `runNext`, `stopTesting`)

JavaScript is single-threaded and cooperative, so the run is modelled as a
state machine: synchronous code runs atomically, and the only interleaving
points are probe completions (the `await testConfig` resumptions) and the
user pressing stop.  A trace is a list of such events. -/

/-- Scheduler state: `inflight` are the ids of records whose probe has
started and not yet resolved (`running` in the source is
`inflight.length`). -/
structure SchedState where
  timeout : Int
  stopFlag : Bool
  isTesting : Bool
  queue : List String
  inflight : List String
  records : List ProxyConfig
deriving DecidableEq

/-- `stopTesting` revert: every still-`Testing` record goes back to
`Untested`. -/
def revertTesting (rs : List ProxyConfig) : List ProxyConfig :=
  rs.map fun c => if c.status = Status.Testing then { c with status := Status.Untested } else c

/-- The synchronous body of `runNext` up to (and excluding) the `await`:
checks the stop flag, then either finishes/reverts, or pops the next
queued id into the in-flight set. -/
def runNextStep (s : SchedState) : SchedState :=
  if s.stopFlag then
    if s.inflight.isEmpty then
      { s with isTesting := false, records := revertTesting s.records }
    else s
  else if s.queue.isEmpty then
    if s.inflight.isEmpty then { s with isTesting := false } else s
  else
    { s with queue := s.queue.tail, inflight := s.inflight ++ s.queue.head?.toList }

/-- Resumption of a worker whose probe for record `i` resolved: the result
is applied only when the stop flag is still clear, the worker leaves the
in-flight set, and `runNext` is invoked again.  An event naming an id that
is not in flight is a no-op (no such resumption can occur). -/
def completeStep (s : SchedState) (i : String) (p : ProbeParams) : SchedState :=
  if s.inflight.contains i then
    let s1 :=
      if s.stopFlag then s
      else { s with records := s.records.map fun c =>
               if c.id = i then
                 applyOutcome c (testConfigModel c s.timeout p.latRand p.failRand p.speedRand) p.time
               else c }
    runNextStep { s1 with inflight := s1.inflight.erase i }
  else s

/-- An interleaving event of a manual run. -/
inductive SchedEvent where
  | complete (i : String) (p : ProbeParams)
  | stop
deriving DecidableEq

/-- One event transition. -/
def schedStep (s : SchedState) : SchedEvent → SchedState
  | .complete i p => completeStep s i p
  | .stop => { s with stopFlag := true }

/-- A trace of events. -/
def schedRun (s : SchedState) (evs : List SchedEvent) : SchedState :=
  evs.foldl schedStep s

/-- The worker-launch loop
`for (let i = 0; i < Math.min(concurrentTests, queue.length); i++) runNext()`;
the bound is re-evaluated each iteration and `runNext` synchronously
shrinks the queue.  The loop counter is split into the iterations already
done (`i`) and the iterations left (`fuel`, initially the concurrency
setting, so the configured bound is `fuel + i`), which makes the recursion
structural. -/
def launchLoopF : Nat → Nat → SchedState → SchedState
  | 0, _, s => s
  | fuel + 1, i, s =>
    if i < min (fuel + 1 + i) s.queue.length then launchLoopF fuel (i + 1) (runNextStep s)
    else s

/-- The candidate set of a manual run: the `Untested`/`Inactive` records of
the currently visible view. -/
def candidatesOf (view : List ProxyConfig) : List ProxyConfig :=
  view.filter fun c => c.status = Status.Untested ∨ c.status = Status.Inactive

/-- `startTesting`: every candidate is marked `Testing`, the queue is the
candidate ids in view order, and up to `concurrentTests` workers are
launched. -/
def initScheduler (records view : List ProxyConfig) (conc : Nat) (timeout : Int) : SchedState :=
  launchLoopF conc 0
    { timeout := timeout, stopFlag := false, isTesting := true,
      queue := (candidatesOf view).map (·.id), inflight := [],
      records := records.map fun c =>
        if (candidatesOf view).any fun ct => ct.id = c.id then { c with status := Status.Testing }
        else c }

/-! ## Concrete fixtures used by witnesses and counterexamples -/

/-- A fresh untested record. -/
def sampleUntested : ProxyConfig := mkNewConfig "a" "rawa"

/-- A second fresh untested record. -/
def sampleUntestedB : ProxyConfig := mkNewConfig "b" "rawb"

/-- A record with a completed fast probe. -/
def sampleFast : ProxyConfig :=
  { mkNewConfig "c" "rawc" with status := .Active, latency := 120, score := 94 }

/-- Probe draws for a successful 100 ms probe. -/
def probeOk : ProbeParams := { latRand := 50, failRand := false, speedRand := 0, time := "t1" }

/-- Probe draws for an explicitly failed probe. -/
def probeFail : ProbeParams := { latRand := 50, failRand := true, speedRand := 0, time := "t2" }

/-! ## C5: failure-branch postcondition -/

/-- C5.  For every probe whose measured latency exceeds the configured
timeout or which explicitly reports failure, the outcome is
status=Inactive, latency=-1, score=0, speed=0, and the record ends with a
-1 sample prepended to its latency history, capped at 10. -/
theorem c5_failure_postcondition (c : ProxyConfig) (timeout : Int) (latRand : Nat)
    (failRand : Bool) (speedRand : ℚ) (time : String)
    (h : (50 + (latRand : Int)) > timeout ∨ failRand = true) :
    (testConfigModel c timeout latRand failRand speedRand).status = Status.Inactive ∧
    (testConfigModel c timeout latRand failRand speedRand).latency = -1 ∧
    (testConfigModel c timeout latRand failRand speedRand).score = 0 ∧
    (testConfigModel c timeout latRand failRand speedRand).speed = 0 ∧
    (applyOutcome c (testConfigModel c timeout latRand failRand speedRand) time).latencyHistory
      = ((-1) :: c.latencyHistory).take 10 ∧
    (applyOutcome c (testConfigModel c timeout latRand failRand speedRand) time).latencyHistory.length
      ≤ 10 ∧
    (applyOutcome c (testConfigModel c timeout latRand failRand speedRand) time).status
      = Status.Inactive ∧
    (applyOutcome c (testConfigModel c timeout latRand failRand speedRand) time).latency = -1 := by
  simp only [testConfigModel, applyOutcome, if_pos h]
  simp [List.length_take]

/-- C5 witness: a 100 ms probe against a 60 ms timeout on a concrete
record ends Inactive with the -1 sentinel. -/
theorem c5_failure_postcondition_witness :
    (testConfigModel sampleUntested 60 50 false 0).status = Status.Inactive ∧
    (testConfigModel sampleUntested 60 50 false 0).latency = -1 ∧
    (applyOutcome sampleUntested (testConfigModel sampleUntested 60 50 false 0) "t").latencyHistory
      = [-1] := by
  have h := c5_failure_postcondition sampleUntested 60 50 false 0 "t" (by decide)
  exact ⟨h.1, h.2.1, by rw [h.2.2.2.2.1]; decide⟩

/-! ## C6: success-branch postcondition (corrected) -/

/-- C6 counterexample, refuting the claim as stated on two concrete
probes.  First, a probe with measured latency 100 ≤ timeout 3000 that
explicitly reports failure (the `Math.random() > 0.8` draw) ends
`Inactive`, not `Active` as the claim requires for every probe with
latency ≤ timeout.  Second, with latency 994 and jitter draw 0 the speed
is 905, strictly below 90 percent of `max(50, 2000-994) = 1006`, so the
final integer speed is not always within ±10 percent of the base. -/
theorem c6_counterexample :
    ((50 : Int) + 50 ≤ 3000 ∧
      (testConfigModel sampleUntested 3000 50 true 0).status = Status.Inactive ∧
      (testConfigModel sampleUntested 3000 50 true 0).status ≠ Status.Active) ∧
    ((50 : Int) + 944 ≤ 3000 ∧
      (testConfigModel sampleUntested 3000 944 false 0).speed = 905 ∧
      ((testConfigModel sampleUntested 3000 944 false 0).speed : ℚ)
        < 9 * ((max 50 (2000 - (50 + (944 : Int))) : Int) : ℚ) / 10) := by
  have hspeed : (testConfigModel sampleUntested 3000 944 false 0).speed = 905 := by
    simp only [testConfigModel, jsRound]
    norm_num [max_def, Int.floor_eq_iff]
  refine ⟨⟨by norm_num, by simp [testConfigModel], by simp [testConfigModel]⟩,
          ⟨by norm_num, hspeed, ?_⟩⟩
  rw [hspeed]
  norm_num [max_def]

/-- C6 (amended).  For every probe with measured latency ≤ timeout that
does not explicitly report failure: status is Slow above 1000 ms and
Active otherwise; score is `max 0 (round (100 - latency/20))` and always
lies in [0, 100]; and the speed is within ±10 percent of
`max 50 (2000 - latency)` up to the final half-unit integer rounding. -/
theorem c6_success_postcondition_amended (c : ProxyConfig) (timeout : Int) (latRand : Nat)
    (speedRand : ℚ) (h0 : 0 ≤ speedRand) (h1 : speedRand < 1)
    (hlat : (50 + (latRand : Int)) ≤ timeout) :
    (testConfigModel c timeout latRand false speedRand).status
      = (if (50 + (latRand : Int)) > 1000 then Status.Slow else Status.Active) ∧
    (testConfigModel c timeout latRand false speedRand).score
      = max 0 (jsRound (100 - ((50 + (latRand : Int) : Int) : ℚ) / 20)) ∧
    0 ≤ (testConfigModel c timeout latRand false speedRand).score ∧
    (testConfigModel c timeout latRand false speedRand).score ≤ 100 ∧
    9 * ((max 50 (2000 - (50 + (latRand : Int))) : Int) : ℚ) / 10 - 1/2
      ≤ ((testConfigModel c timeout latRand false speedRand).speed : ℚ) ∧
    ((testConfigModel c timeout latRand false speedRand).speed : ℚ)
      ≤ 11 * ((max 50 (2000 - (50 + (latRand : Int))) : Int) : ℚ) / 10 + 1/2 := by
  have hcond : ¬((50 + (latRand : Int)) > timeout ∨ (false = true)) := by
    simp only [Bool.false_eq_true, or_false, not_lt]
    exact hlat
  simp only [testConfigModel, if_neg hcond]
  set b : Int := max 50 (2000 - (50 + (latRand : Int))) with hb
  have hb50 : (50 : Int) ≤ b := le_max_left _ _
  have hbQ : (50 : ℚ) ≤ (b : ℚ) := by exact_mod_cast hb50
  have hbpos : (0 : ℚ) < (b : ℚ) := by linarith
  have hlatQ : (0 : ℚ) ≤ (latRand : ℚ) := Nat.cast_nonneg _
  refine ⟨trivial, trivial, le_max_left _ _, ?_, ?_, ?_⟩
  · have hfl : jsRound (100 - ((50 + (latRand : Int) : Int) : ℚ) / 20) < 101 := by
      rw [jsRound]
      refine Int.floor_lt.mpr ?_
      push_cast
      linarith
    omega
  · have hx : 9 * (b : ℚ) / 10
        ≤ (b : ℚ) + (speedRand * (b : ℚ) * (1/5) - (b : ℚ) * (1/10)) := by
      nlinarith
    have hfl := Int.lt_floor_add_one
      ((b : ℚ) + (speedRand * (b : ℚ) * (1/5) - (b : ℚ) * (1/10)) + 1/2)
    rw [jsRound]
    push_cast at hfl
    linarith
  · have hx : (b : ℚ) + (speedRand * (b : ℚ) * (1/5) - (b : ℚ) * (1/10))
        < 11 * (b : ℚ) / 10 := by
      nlinarith
    have hfl := Int.floor_le
      ((b : ℚ) + (speedRand * (b : ℚ) * (1/5) - (b : ℚ) * (1/10)) + 1/2)
    rw [jsRound]
    push_cast at hfl
    linarith

/-- C6 witness: a successful 100 ms probe against a 3000 ms timeout is
Active with score 95, and its speed respects the jitter band. -/
theorem c6_success_postcondition_witness :
    (testConfigModel sampleUntested 3000 50 false 0).status = Status.Active ∧
    (testConfigModel sampleUntested 3000 50 false 0).score = 95 ∧
    0 ≤ (testConfigModel sampleUntested 3000 50 false 0).score ∧
    (testConfigModel sampleUntested 3000 50 false 0).score ≤ 100 := by
  have h := c6_success_postcondition_amended sampleUntested 3000 50 0
    (by norm_num) (by norm_num) (by norm_num)
  refine ⟨?_, ?_, h.2.2.1, h.2.2.2.1⟩
  · rw [h.1]; decide
  · rw [h.2.1, jsRound]
    norm_num [Int.floor_eq_iff]

/-! ## C9: the -1 sentinel satisfies latency less-than rules -/

/-- C9.  The rule engine compares the latency failure sentinel as the
ordinary number -1: for every record with latency = -1 and every rule
`latency less_than V` whose value coerces to a number above -1 (including
the default rule `latency less_than 300` created by the settings UI), the
rule evaluates true, and a smart group made of such a rule matches the
failed/untested record. -/
theorem c9_sentinel_matches_lessthan (c : ProxyConfig) (v : RuleValue) (n : Int)
    (hc : c.latency = -1) (hv : jsNumOfRuleValue v = some n) (hn : -1 < n) :
    evaluateRule c { field := .latency, operator := .less_than, value := v } = true ∧
    evaluateRule c defaultNewRule = true ∧
    smartGroupMatches c { name := "fast", rules := [⟨.latency, .less_than, v⟩] } = true := by
  have h1 : evaluateRule c { field := .latency, operator := .less_than, value := v } = true := by
    simp [evaluateRule, fieldUndefined, isNumField, hv, hc, hn]
  refine ⟨h1, ?_, ?_⟩
  · simp [evaluateRule, defaultNewRule, fieldUndefined, isNumField, jsNumOfRuleValue, hc]
  · simp [smartGroupMatches, h1]

/-- C9 witness: a record whose probe failed (latency -1) is matched by the
default rule `latency less_than 300`. -/
theorem c9_sentinel_matches_lessthan_witness :
    evaluateRule sampleUntested defaultNewRule = true ∧
    smartGroupMatches sampleUntested
      { name := "fast", rules := [⟨.latency, .less_than, .num 300⟩] } = true := by
  have h := c9_sentinel_matches_lessthan sampleUntested (.num 300) 300
    (by decide) (by decide) (by decide)
  exact ⟨h.2.1, h.2.2⟩

/-! ## C7: latency sort placement -/

/-- C7.  In the query pipeline, `latency = -1` is compared as positive
infinity (`latKey` maps it to the top element), and consequently in the
ascending latency sort every record with latency -1 appears after every
record with latency ≥ 0: no -1 record precedes a non-negative-latency
record in the sorted output. -/
theorem c7_latency_sort_placement (l : List ProxyConfig) :
    (∀ c : ProxyConfig, c.latency = -1 → latKey c = ⊤) ∧
    List.Pairwise (fun a b => ¬(a.latency = -1 ∧ 0 ≤ b.latency)) (sortByLatencyAsc l) := by
  constructor
  · intro c h
    simp [latKey, h]
  · have htrans : ∀ a b c : ProxyConfig, latAscLE a b → latAscLE b c → latAscLE a c := by
      intro a b c hab hbc
      simp only [latAscLE, decide_eq_true_eq] at hab hbc ⊢
      exact le_trans hab hbc
    have htotal : ∀ a b : ProxyConfig, latAscLE a b || latAscLE b a := by
      intro a b
      simp only [latAscLE]
      rcases le_total (latKey a) (latKey b) with h | h <;> simp [h]
    have hs := @List.sorted_mergeSort ProxyConfig latAscLE htrans htotal l
    refine hs.imp ?_
    rintro a b hab ⟨ha, hb⟩
    have hle : latKey a ≤ latKey b := by simpa [latAscLE] using hab
    rw [show latKey a = ⊤ by simp [latKey, ha]] at hle
    have hbtop : latKey b = ⊤ := top_le_iff.mp hle
    simp only [latKey] at hbtop
    split at hbtop
    · omega
    · exact WithTop.coe_ne_top hbtop

/-- C7 witness: the placement property at a concrete two-record list with
one failed and one fast record. -/
theorem c7_latency_sort_placement_witness :
    List.Pairwise (fun a b => ¬(a.latency = -1 ∧ 0 ≤ b.latency))
      (sortByLatencyAsc [sampleUntested, sampleFast]) ∧
    latKey sampleUntested = ⊤ :=
  ⟨(c7_latency_sort_placement [sampleUntested, sampleFast]).2,
   (c7_latency_sort_placement []).1 sampleUntested (by decide)⟩

/-! ## C8: history-cap invariant -/

/-- One probe prepends its sample and truncates to 10. -/
theorem probeStep_latencyHistory (t : Int) (c : ProxyConfig) (p : ProbeParams) :
    (probeStep t c p).latencyHistory = (probeSample t p :: c.latencyHistory).take 10 := by
  simp only [probeStep, applyOutcome, testConfigModel, probeSample]
  split_ifs with h <;> rfl

/-- History length after one probe. -/
theorem probeStep_latencyHistory_length (t : Int) (c : ProxyConfig) (p : ProbeParams) :
    (probeStep t c p).latencyHistory.length = min (c.latencyHistory.length + 1) 10 := by
  rw [probeStep_latencyHistory]
  simp [List.length_take]
  omega

/-- History length after a non-empty probe sequence. -/
theorem runProbes_length (t : Int) :
    ∀ (ps : List ProbeParams) (c : ProxyConfig) (p : ProbeParams),
      (runProbes t c (p :: ps)).latencyHistory.length
        = min (c.latencyHistory.length + 1 + ps.length) 10 := by
  intro ps
  induction ps with
  | nil =>
    intro c p
    simp [runProbes, probeStep_latencyHistory_length]
  | cons q ps ih =>
    intro c p
    have hstep : runProbes t c (p :: q :: ps) = runProbes t (probeStep t c p) (q :: ps) := rfl
    rw [hstep, ih, probeStep_latencyHistory_length]
    simp only [List.length_cons]
    omega

/-- The head of the history after a probe sequence is the last sample. -/
theorem runProbes_head (t : Int) (ps : List ProbeParams) (c : ProxyConfig) (hne : ps ≠ []) :
    (runProbes t c ps).latencyHistory.head? = some (probeSample t (ps.getLast hne)) := by
  induction ps using List.reverseRecOn generalizing c with
  | nil => exact absurd rfl hne
  | append_singleton l a _ =>
    have hfold : runProbes t c (l ++ [a]) = probeStep t (runProbes t c l) a := by
      simp [runProbes, List.foldl_append]
    rw [hfold, probeStep_latencyHistory]
    have h10 : ((probeSample t a :: (runProbes t c l).latencyHistory).take 10)
        = probeSample t a :: ((runProbes t c l).latencyHistory.take 9) := by
      simp [List.take_succ_cons]
    rw [h10, List.getLast_concat]
    rfl

/-- C8.  For every record and every non-empty sequence of completed probes
(successes and failures alike), the latency history stays capped at 10,
its first element is the most recent sample, and after 10 or more probes
its length is exactly 10. -/
theorem c8_history_cap (timeout : Int) (c : ProxyConfig) (ps : List ProbeParams)
    (hne : ps ≠ []) :
    (runProbes timeout c ps).latencyHistory.length ≤ 10 ∧
    (runProbes timeout c ps).latencyHistory.head?
      = some (probeSample timeout (ps.getLast hne)) ∧
    (10 ≤ ps.length → (runProbes timeout c ps).latencyHistory.length = 10) := by
  obtain ⟨p, ps2, rfl⟩ : ∃ p ps2, ps = p :: ps2 := by
    cases ps with
    | nil => exact absurd rfl hne
    | cons p ps2 => exact ⟨p, ps2, rfl⟩
  refine ⟨?_, runProbes_head timeout _ c hne, ?_⟩
  · rw [runProbes_length]
    omega
  · intro h10
    rw [runProbes_length]
    simp only [List.length_cons] at h10
    omega

/-- C8 witness: ten successful probes on a fresh record leave a history of
length exactly 10 headed by the latest sample. -/
theorem c8_history_cap_witness :
    (runProbes 3000 sampleUntested (List.replicate 10 probeOk)).latencyHistory.length = 10 ∧
    (runProbes 3000 sampleUntested (List.replicate 10 probeOk)).latencyHistory.head?
      = some (probeSample 3000 ((List.replicate 10 probeOk).getLast (by decide))) := by
  have h := c8_history_cap 3000 sampleUntested (List.replicate 10 probeOk) (by decide)
  exact ⟨h.2.2 (by decide), h.2.1⟩

/-! ## C10: vmess decode with missing add/port fields -/

/-- Appending to a prefix satisfies the startsWith test. -/
theorem jsStartsWith_append (pre rest : String) : jsStartsWith (pre ++ rest) pre = true := by
  simp only [jsStartsWith, String.data_append, List.isPrefixOf_iff_prefix]
  exact List.prefix_append _ _

/-- Dropping the vmess scheme prefix recovers the payload. -/
theorem vmess_drop (payload : String) : ("vmess://" ++ payload).drop 8 = payload := by
  apply String.ext
  rw [String.drop_eq]
  show ("vmess://" ++ payload).data.drop 8 = payload.data
  rw [String.data_append]
  exact List.drop_left' (by rfl)

/-- Characterisation of `parseConfigAux` on vmess inputs. -/
theorem parseConfigAux_vmess (payload : String) :
    parseConfigAux ("vmess://" ++ payload)
      = (atobOpt payload).bind fun json => (jsonParse json).map fun data =>
          { protocol := some .Vmess,
            name := some (if jsTruthy (jsGet data "ps")
                          then jsDisplay ((jsGet data "ps").getD .jnull)
                          else "Vmess Config"),
            host := some (jsHostVal (jsGet data "add")),
            port := some (jsToNumber (jsGet data "port")) } := by
  unfold parseConfigAux
  rw [if_pos (jsStartsWith_append "vmess://" payload), vmess_drop]
  cases atobOpt payload with
  | none => rfl
  | some j =>
    simp only [Option.bind_eq_bind, Option.some_bind]
    cases jsonParse j with
    | none => rfl
    | some o => rfl

/-- C10.  For every vmess input whose payload is valid base64 of valid
JSON lacking the `add` and `port` fields, decoding yields protocol Vmess
with host undefined and port NaN, and those values override the record
defaults when merged; the Unknown-scheme placeholder arises exactly when
the base64 or JSON layer throws. -/
theorem c10_vmess_partial_fields :
    (∀ (payload json : String) (obj : JsonObj),
        atobOpt payload = some json → jsonParse json = some obj →
        jsGet obj "add" = none → jsGet obj "port" = none →
        parseConfig ("vmess://" ++ payload)
          = { protocol := some .Vmess,
              name := some (if jsTruthy (jsGet obj "ps")
                            then jsDisplay ((jsGet obj "ps").getD .jnull)
                            else "Vmess Config"),
              host := some none, port := some none } ∧
        (mergeParsed (mkNewConfig "0" ("vmess://" ++ payload))
            (parseConfig ("vmess://" ++ payload))).host = none ∧
        (mergeParsed (mkNewConfig "0" ("vmess://" ++ payload))
            (parseConfig ("vmess://" ++ payload))).port = none) ∧
    (∀ payload : String,
        parseConfig ("vmess://" ++ payload) = placeholderParsed ↔
          (atobOpt payload = none ∨
            ∃ json, atobOpt payload = some json ∧ jsonParse json = none)) := by
  constructor
  · intro payload json obj hatob hjson hadd hport
    have hpc : parseConfig ("vmess://" ++ payload)
        = { protocol := some .Vmess,
            name := some (if jsTruthy (jsGet obj "ps")
                          then jsDisplay ((jsGet obj "ps").getD .jnull)
                          else "Vmess Config"),
            host := some none, port := some none } := by
      simp only [parseConfig, parseConfigAux_vmess, hatob, Option.some_bind, hjson,
        Option.map_some', Option.getD_some, hadd, hport]
      rfl
    refine ⟨hpc, ?_, ?_⟩ <;> rw [hpc] <;> rfl
  · intro payload
    simp only [parseConfig, parseConfigAux_vmess]
    cases hatob : atobOpt payload with
    | none => simp
    | some j =>
      cases hjson : jsonParse j with
      | none =>
        refine iff_of_true ?_ (Or.inr ⟨j, rfl, hjson⟩)
        simp [hjson]
      | some o =>
        refine iff_of_false ?_ ?_
        · simp [hjson, placeholderParsed]
        · rintro (h | ⟨j2, hj2, hn⟩)
          · exact Option.noConfusion h
          · obtain rfl : j = j2 := by injection hj2
            rw [hjson] at hn
            exact Option.noConfusion hn

/-- C10 witness: the payload `e30=` (base64 of the empty JSON object)
decodes to a Vmess record whose host is undefined and port is NaN, and the
merge keeps those values over the defaults. -/
theorem c10_vmess_partial_fields_witness :
    parseConfig "vmess://e30=" = { protocol := some .Vmess, name := some "Vmess Config",
                                    host := some none, port := some none } ∧
    (mergeParsed (mkNewConfig "0" "vmess://e30=") (parseConfig "vmess://e30=")).host = none ∧
    (mergeParsed (mkNewConfig "0" "vmess://e30=") (parseConfig "vmess://e30=")).port = none := by
  have he : ("vmess://" ++ "e30=" : String) = "vmess://e30=" := by decide
  have h := (c10_vmess_partial_fields).1 "e30=" "{}" []
    (by decide) (by decide) (by decide) (by decide)
  rw [he] at h
  refine ⟨?_, h.2.1, h.2.2⟩
  rw [h.1]
  decide

/-! ## C1: decode totality and batch safety -/

/-- C1 (code bug).  The ConfigManager codec is total and batch-safe: every
raw string that survives the blank/duplicate filter yields a record (the
whole batch is never shortened by a parse failure), and on the concrete
batch `[vless link, garbage]` the garbage item degrades to the placeholder
record while the good item is kept.  The app-root `addProcessedConfigs`
used by the share-link import path, however, calls `new URL(raw)` outside
any try/catch, so the same batch throws `TypeError` and the whole batch is
lost, contradicting both the spec and the code's own comment that it
should be consistent with the ConfigManager parser. -/
theorem c1_decode_total_but_app_import_aborts :
    (∀ (configs : List ProxyConfig) (raws : List String),
        (cmAddProcessedConfigs configs raws).length
          = (newRawFilter (configs.map (·.rawConfig)) raws).length) ∧
    (cmAddProcessedConfigs [] ["vless://u@h:1#A", "hello world"]).map
        (fun c => (c.name, c.host, c.port, c.protocol, c.rawConfig))
      = [("A", some "h", some 1, Protocol.Vless, "vless://u@h:1#A"),
         ("Unnamed Config", some "unknown.host", some 0, Protocol.Unknown, "hello world")] ∧
    appAddProcessedConfigs [] ["vless://u@h:1#A", "hello world"]
      = Except.error "TypeError: Invalid URL" := by
  refine ⟨?_, by decide, rfl⟩
  intro configs raws
  simp [cmAddProcessedConfigs]

/-! ## C2: dedup by raw connection string (corrected) -/

/-- C2 counterexample: the duplicate check only consults the records
already in the inventory, so inserting the same raw string twice within
one batch yields two records with that raw string. -/
theorem c2_dup_within_batch_counterexample :
    ((addBatch [] ["hello", "hello"]).countP fun c => c.rawConfig == "hello") = 2 := by
  decide

/-- Records built for a batch carry the raw string they came from. -/
theorem cmAdd_rawConfig_mem {configs : List ProxyConfig} {raws : List String}
    {c : ProxyConfig} (h : c ∈ cmAddProcessedConfigs configs raws) :
    c.rawConfig ∈ newRawFilter (configs.map (·.rawConfig)) raws := by
  simp only [cmAddProcessedConfigs, List.mem_map] at h
  obtain ⟨⟨i, raw⟩, hm, rfl⟩ := h
  rw [List.enum_eq_zip_range] at hm
  exact (List.of_mem_zip hm).2

/-- Raw strings kept by the filter are not already present. -/
theorem newRawFilter_not_contains {existingRaws : List String} {raws : List String}
    {r : String} (h : r ∈ newRawFilter existingRaws raws) :
    existingRaws.contains r = false := by
  simp only [newRawFilter, List.mem_filter, decide_eq_true_eq] at h
  simpa using h.2.2

/-- C2 (amended).  Dedup holds across batches: a batch never adds a record
whose raw string is already in the inventory, so inserting the same raw
string in two separate batches yields exactly one record and the second
insertion is a no-op.  (Within a single batch duplicates are not detected;
see the counterexample.) -/
theorem c2_dedup_across_batches (configs : List ProxyConfig) (raws : List String)
    (r : String) (htrim : jsTrim r ≠ "")
    (hmem : (configs.map (·.rawConfig)).contains r = false) :
    (∀ c ∈ cmAddProcessedConfigs configs raws,
        ((configs.map (·.rawConfig)).contains c.rawConfig) = false) ∧
    ((addBatch configs [r]).countP fun c => c.rawConfig == r) = 1 ∧
    addBatch (addBatch configs [r]) [r] = addBatch configs [r] := by
  have hnotmem : ∀ c ∈ configs, c.rawConfig ≠ r := by
    intro c hc hcr
    have : (configs.map (·.rawConfig)).contains r = true := by
      rw [List.contains_iff_exists_mem_beq]
      exact ⟨c.rawConfig, List.mem_map_of_mem _ hc, by simp [hcr]⟩
    rw [this] at hmem
    exact Bool.noConfusion hmem
  have hfilter : newRawFilter (configs.map (·.rawConfig)) [r] = [r] := by
    have hp : jsTrim r ≠ "" ∧ ¬(configs.map (·.rawConfig)).contains r = true := by
      refine ⟨htrim, ?_⟩
      intro hcont
      obtain ⟨a, hamem, habeq⟩ := List.contains_iff_exists_mem_beq.mp hcont
      obtain ⟨c, hc, rfl⟩ := List.mem_map.mp hamem
      have heq : r = c.rawConfig := by simpa using habeq
      exact hnotmem c hc heq.symm
    simp only [newRawFilter, List.filter, decide_eq_true hp]
  have hone : cmAddProcessedConfigs configs [r]
      = [mergeParsed (mkNewConfig (toString 0) r) (parseConfig r)] := by
    simp [cmAddProcessedConfigs, hfilter, List.enum]
  have hrawrec : (mergeParsed (mkNewConfig (toString 0) r) (parseConfig r)).rawConfig = r := rfl
  have hcount0 : (configs.countP fun c => c.rawConfig == r) = 0 := by
    rw [List.countP_eq_zero]
    intro c hc hbeq
    exact hnotmem c hc (by simpa using hbeq)
  have hmem2 : r ∈ (addBatch configs [r]).map (·.rawConfig) := by
    rw [addBatch, hone, List.map_append]
    exact List.mem_append_right _ (by simp [hrawrec])
  refine ⟨?_, ?_, ?_⟩
  · intro c hc
    exact newRawFilter_not_contains (cmAdd_rawConfig_mem hc)
  · rw [addBatch, List.countP_append, hcount0, hone]
    simp [hrawrec]
  · have hcont2 : ((addBatch configs [r]).map (·.rawConfig)).contains r = true := by
      rw [List.contains_iff_exists_mem_beq]
      exact ⟨r, hmem2, by simp⟩
    have hfilter2 : newRawFilter ((addBatch configs [r]).map (·.rawConfig)) [r] = [] := by
      have hq : ¬(jsTrim r ≠ ""
          ∧ ¬((addBatch configs [r]).map (·.rawConfig)).contains r = true) := by
        rintro ⟨-, hno⟩
        exact hno hcont2
      simp only [newRawFilter, List.filter, decide_eq_false hq]
    have hnone : cmAddProcessedConfigs (addBatch configs [r]) [r] = [] := by
      simp [cmAddProcessedConfigs, hfilter2]
    rw [addBatch, hnone, List.append_nil]

/-- C2 witness: inserting one fresh raw string and then inserting it again
in a second batch leaves exactly one matching record and an unchanged
inventory. -/
theorem c2_dedup_across_batches_witness :
    ((addBatch [] ["vless://u@h:1#A"]).countP fun c => c.rawConfig == "vless://u@h:1#A") = 1 ∧
    addBatch (addBatch [] ["vless://u@h:1#A"]) ["vless://u@h:1#A"]
      = addBatch [] ["vless://u@h:1#A"] := by
  have h := c2_dedup_across_batches [] [] "vless://u@h:1#A" (by decide) (by decide)
  exact ⟨h.2.1, h.2.2⟩

/-! ## Scheduler invariants (C3, C4) -/

/-- No record is in the transient Testing state. -/
def NoTesting (rs : List ProxyConfig) : Prop :=
  ∀ c ∈ rs, c.status ≠ Status.Testing

/-- The run invariant: once the scheduler reports not-testing no record is
stuck in Testing, and while the stop flag is clear every Testing record is
still queued or in flight. -/
def SchedInv (s : SchedState) : Prop :=
  (s.isTesting = false → NoTesting s.records) ∧
  (s.stopFlag = false → ∀ c ∈ s.records, c.status = Status.Testing →
      c.id ∈ s.queue ∨ c.id ∈ s.inflight)

/-- A probe outcome never carries the Testing status. -/
theorem testConfigModel_status_ne_testing (c : ProxyConfig) (t : Int) (lr : Nat)
    (fr : Bool) (sr : ℚ) : (testConfigModel c t lr fr sr).status ≠ Status.Testing := by
  simp only [testConfigModel]
  split_ifs <;> simp

/-- The revert pass leaves no Testing record. -/
theorem revertTesting_noTesting (rs : List ProxyConfig) : NoTesting (revertTesting rs) := by
  intro c hc
  simp only [revertTesting, List.mem_map] at hc
  obtain ⟨a, -, rfl⟩ := hc
  split_ifs with h
  · simp
  · simpa using h

/-- `runNext` preserves the run invariant. -/
theorem runNextStep_inv {s : SchedState} (h : SchedInv s) : SchedInv (runNextStep s) := by
  obtain ⟨h1, h2⟩ := h
  unfold runNextStep
  by_cases hf : s.stopFlag = true
  · rw [if_pos hf]
    by_cases he : s.inflight.isEmpty = true
    · rw [if_pos he]
      refine ⟨fun _ => revertTesting_noTesting _, fun hfl => ?_⟩
      rw [hf] at hfl
      exact Bool.noConfusion hfl
    · rw [if_neg he]
      exact ⟨h1, h2⟩
  · rw [if_neg hf]
    have hfl : s.stopFlag = false := by revert hf; cases s.stopFlag <;> simp
    by_cases hq : s.queue.isEmpty = true
    · rw [if_pos hq]
      have hqnil : s.queue = [] := List.isEmpty_iff.mp hq
      by_cases he : s.inflight.isEmpty = true
      · rw [if_pos he]
        have hinfl : s.inflight = [] := List.isEmpty_iff.mp he
        have hnt : NoTesting s.records := by
          intro c hc hct
          rcases h2 hfl c hc hct with hin | hin
          · rw [hqnil] at hin; exact absurd hin (List.not_mem_nil _)
          · rw [hinfl] at hin; exact absurd hin (List.not_mem_nil _)
        exact ⟨fun _ => hnt, fun _ c hc hct => absurd hct (hnt c hc)⟩
      · rw [if_neg he]
        exact ⟨h1, h2⟩
    · rw [if_neg hq]
      refine ⟨fun hIT => h1 hIT, fun hfl2 c hc hct => ?_⟩
      obtain ⟨q, rest, hqe⟩ :=
        List.exists_cons_of_ne_nil (fun hnil => hq (List.isEmpty_iff.mpr hnil))
      rcases h2 hfl c hc hct with hin | hin
      · rw [hqe] at hin
        rcases List.mem_cons.mp hin with heq | hin2
        · right
          rw [hqe]
          simp [heq]
        · left
          rw [hqe]
          simpa using hin2
      · right; exact List.mem_append_left _ hin

/-- Worker completion preserves the run invariant. -/
theorem completeStep_inv {s : SchedState} (hinv : SchedInv s) (i : String) (p : ProbeParams) :
    SchedInv (completeStep s i p) := by
  unfold completeStep
  by_cases hc : s.inflight.contains i = true
  · rw [if_pos hc]
    apply runNextStep_inv
    obtain ⟨h1, h2⟩ := hinv
    by_cases hf : s.stopFlag = true
    · rw [if_pos hf]
      refine ⟨fun hIT => h1 hIT, fun hfl => ?_⟩
      rw [hf] at hfl
      exact Bool.noConfusion hfl
    · rw [if_neg hf]
      have hfl : s.stopFlag = false := by revert hf; cases s.stopFlag <;> simp
      constructor
      · intro hIT c hcmem
        simp only [List.mem_map] at hcmem
        obtain ⟨a, ha, rfl⟩ := hcmem
        by_cases hid : a.id = i
        · rw [if_pos hid]
          exact testConfigModel_status_ne_testing a s.timeout p.latRand p.failRand p.speedRand
        · rw [if_neg hid]
          exact h1 hIT a ha
      · intro hfl2 c hcmem hct
        simp only [List.mem_map] at hcmem
        obtain ⟨a, ha, rfl⟩ := hcmem
        by_cases hid : a.id = i
        · rw [if_pos hid] at hct
          exact absurd hct
            (testConfigModel_status_ne_testing a s.timeout p.latRand p.failRand p.speedRand)
        · rw [if_neg hid] at hct ⊢
          rcases h2 hfl a ha hct with hin | hin
          · left; exact hin
          · right; exact (List.mem_erase_of_ne hid).mpr hin
  · rw [if_neg hc]
    exact hinv

/-- Every event preserves the run invariant. -/
theorem schedStep_inv {s : SchedState} (hinv : SchedInv s) (e : SchedEvent) :
    SchedInv (schedStep s e) := by
  cases e with
  | complete i p => exact completeStep_inv hinv i p
  | stop =>
    obtain ⟨h1, h2⟩ := hinv
    exact ⟨fun hIT => h1 hIT, fun hfl => Bool.noConfusion hfl⟩

/-- Every trace preserves the run invariant. -/
theorem schedRun_inv {s : SchedState} (hinv : SchedInv s) (evs : List SchedEvent) :
    SchedInv (schedRun s evs) := by
  induction evs generalizing s with
  | nil => exact hinv
  | cons e evs ih => exact ih (schedStep_inv hinv e)

/-! ## Launch-loop and step lemmas -/

/-- `runNext` never changes the stop flag. -/
theorem runNextStep_stopFlag (s : SchedState) : (runNextStep s).stopFlag = s.stopFlag := by
  unfold runNextStep
  split_ifs <;> rfl

/-- `runNext` with a clear flag and a non-empty queue pops the head. -/
theorem runNextStep_pop (s : SchedState) (hf : s.stopFlag = false)
    (hq : ¬s.queue.isEmpty = true) :
    runNextStep s
      = { s with queue := s.queue.tail, inflight := s.inflight ++ s.queue.head?.toList } := by
  unfold runNextStep
  rw [if_neg (by simp [hf]), if_neg hq]

/-- `runNext` adds at most one worker. -/
theorem runNextStep_inflight_le (s : SchedState) :
    (runNextStep s).inflight.length ≤ s.inflight.length + 1 := by
  unfold runNextStep
  split_ifs <;> simp [List.length_append]
  cases s.queue.head? <;> simp

/-- `runNext` with a clear flag never removes workers. -/
theorem runNextStep_inflight_ge (s : SchedState) (hf : s.stopFlag = false) :
    s.inflight.length ≤ (runNextStep s).inflight.length := by
  unfold runNextStep
  rw [if_neg (by simp [hf])]
  split_ifs <;> simp [List.length_append]

/-- The launch loop leaves flag, testing state and records untouched and
only moves ids from the queue to the in-flight set. -/
theorem launchLoopF_basic : ∀ (fuel i : Nat) (s : SchedState), s.stopFlag = false →
    (launchLoopF fuel i s).stopFlag = false ∧
    (launchLoopF fuel i s).isTesting = s.isTesting ∧
    (launchLoopF fuel i s).records = s.records ∧
    (launchLoopF fuel i s).timeout = s.timeout ∧
    (∀ x : String,
      (x ∈ (launchLoopF fuel i s).queue ∨ x ∈ (launchLoopF fuel i s).inflight)
        ↔ (x ∈ s.queue ∨ x ∈ s.inflight)) := by
  intro fuel
  induction fuel with
  | zero =>
    intro i s hf
    exact ⟨hf, rfl, rfl, rfl, fun x => Iff.rfl⟩
  | succ fuel ih =>
    intro i s hf
    rw [launchLoopF]
    by_cases hcond : i < min (fuel + 1 + i) s.queue.length
    · rw [if_pos hcond]
      have hql : 0 < s.queue.length :=
        Nat.lt_of_le_of_lt (Nat.zero_le _) (Nat.lt_of_lt_of_le hcond (min_le_right _ _))
      obtain ⟨q, rest, hqe⟩ := List.exists_cons_of_ne_nil (List.length_pos.mp hql)
      have hrun := runNextStep_pop s hf (by simp [List.isEmpty_iff, hqe])
      have hrf : (runNextStep s).stopFlag = false := by rw [runNextStep_stopFlag]; exact hf
      obtain ⟨b1, b2, b3, b4, b5⟩ := ih (i + 1) (runNextStep s) hrf
      refine ⟨b1, ?_, ?_, ?_, ?_⟩
      · rw [b2, hrun]
      · rw [b3, hrun]
      · rw [b4, hrun]
      · intro x
        rw [b5 x, hrun]
        simp only [hqe]
        simp [List.mem_append, List.mem_cons]
        tauto
    · rw [if_neg hcond]
      exact ⟨hf, rfl, rfl, rfl, fun x => Iff.rfl⟩

/-- The launch loop starts at most as many workers as it has iterations. -/
theorem launchLoopF_inflight_le : ∀ (fuel i : Nat) (s : SchedState),
    (launchLoopF fuel i s).inflight.length ≤ s.inflight.length + fuel := by
  intro fuel
  induction fuel with
  | zero =>
    intro i s
    simp [launchLoopF]
  | succ fuel ih =>
    intro i s
    rw [launchLoopF]
    by_cases hcond : i < min (fuel + 1 + i) s.queue.length
    · rw [if_pos hcond]
      have h1 := ih (i + 1) (runNextStep s)
      have h2 := runNextStep_inflight_le s
      omega
    · rw [if_neg hcond]
      omega

/-- With a clear flag the launch loop never removes workers. -/
theorem launchLoopF_inflight_ge : ∀ (fuel i : Nat) (s : SchedState), s.stopFlag = false →
    s.inflight.length ≤ (launchLoopF fuel i s).inflight.length := by
  intro fuel
  induction fuel with
  | zero =>
    intro i s _
    simp [launchLoopF]
  | succ fuel ih =>
    intro i s hf
    rw [launchLoopF]
    by_cases hcond : i < min (fuel + 1 + i) s.queue.length
    · rw [if_pos hcond]
      have h1 := ih (i + 1) (runNextStep s) (by rw [runNextStep_stopFlag]; exact hf)
      have h2 := runNextStep_inflight_ge s hf
      omega
    · rw [if_neg hcond]

/-- With at least one unit of concurrency, an empty in-flight set and a
non-empty queue, the launch loop starts at least one worker. -/
theorem launchLoopF_first (fuel : Nat) (s : SchedState) (hf : s.stopFlag = false)
    (hql : 0 < s.queue.length) (hfuel : 0 < fuel) (hinfl : s.inflight = []) :
    1 ≤ (launchLoopF fuel 0 s).inflight.length := by
  cases fuel with
  | zero => omega
  | succ fuel =>
    rw [launchLoopF]
    have hcond : 0 < min (fuel + 1 + 0) s.queue.length := by
      simp only [Nat.lt_min]
      omega
    rw [if_pos hcond]
    obtain ⟨q, rest, hqe⟩ := List.exists_cons_of_ne_nil (List.length_pos.mp hql)
    have hrun := runNextStep_pop s hf (by simp [List.isEmpty_iff, hqe])
    have h1 : 1 ≤ (runNextStep s).inflight.length := by
      rw [hrun]
      simp [hinfl, hqe]
    have h2 := launchLoopF_inflight_ge fuel (0 + 1) (runNextStep s)
      (by rw [runNextStep_stopFlag]; exact hf)
    omega

/-- Completion never grows the in-flight set. -/
theorem completeStep_inflight_le (s : SchedState) (i : String) (p : ProbeParams) :
    (completeStep s i p).inflight.length ≤ s.inflight.length := by
  unfold completeStep
  by_cases hc : s.inflight.contains i = true
  · rw [if_pos hc]
    have hmem : i ∈ s.inflight := by simpa using hc
    have hlen : (s.inflight.erase i).length = s.inflight.length - 1 :=
      List.length_erase_of_mem hmem
    have hpos : 1 ≤ s.inflight.length := List.length_pos.mpr (List.ne_nil_of_mem hmem)
    by_cases hf : s.stopFlag = true
    · rw [if_pos hf]
      have h3 : (runNextStep { s with inflight := s.inflight.erase i }).inflight.length
          ≤ (s.inflight.erase i).length + 1 := runNextStep_inflight_le _
      show (runNextStep { s with inflight := s.inflight.erase i }).inflight.length
          ≤ s.inflight.length
      omega
    · rw [if_neg hf]
      have h3 : (runNextStep
            { s with
              records := s.records.map fun c =>
                if c.id = i then
                  applyOutcome c (testConfigModel c s.timeout p.latRand p.failRand p.speedRand)
                    p.time
                else c,
              inflight := s.inflight.erase i }).inflight.length
          ≤ (s.inflight.erase i).length + 1 := runNextStep_inflight_le _
      show (runNextStep
            { s with
              records := s.records.map fun c =>
                if c.id = i then
                  applyOutcome c (testConfigModel c s.timeout p.latRand p.failRand p.speedRand)
                    p.time
                else c,
              inflight := s.inflight.erase i }).inflight.length
          ≤ s.inflight.length
      omega
  · rw [if_neg hc]

/-- Events never grow the in-flight set. -/
theorem schedStep_inflight_le (s : SchedState) (e : SchedEvent) :
    (schedStep s e).inflight.length ≤ s.inflight.length := by
  cases e with
  | complete i p => exact completeStep_inflight_le s i p
  | stop => exact Nat.le_refl _

/-- Traces never grow the in-flight set. -/
theorem schedRun_inflight_le (s : SchedState) (evs : List SchedEvent) :
    (schedRun s evs).inflight.length ≤ s.inflight.length := by
  induction evs generalizing s with
  | nil => exact Nat.le_refl _
  | cons e evs ih => exact Nat.le_trans (ih (schedStep s e)) (schedStep_inflight_le s e)

/-- `runNext` with a clear flag, an empty queue and no workers reports the
run finished. -/
theorem runNextStep_finish (s : SchedState) (hf : s.stopFlag = false)
    (hq : s.queue.isEmpty = true) (he : s.inflight.isEmpty = true) :
    runNextStep s = { s with isTesting := false } := by
  unfold runNextStep
  rw [if_neg (by simp [hf]), if_pos hq, if_pos he]

/-- `runNext` with a clear flag, an empty queue and workers still in
flight changes nothing. -/
theorem runNextStep_busy (s : SchedState) (hf : s.stopFlag = false)
    (hq : s.queue.isEmpty = true) (he : ¬s.inflight.isEmpty = true) :
    runNextStep s = s := by
  unfold runNextStep
  rw [if_neg (by simp [hf]), if_pos hq, if_neg he]

/-- Completion of an in-flight worker with a clear flag applies the result
and runs `runNext` on the shrunk in-flight set. -/
theorem completeStep_eq (s : SchedState) (i : String) (p : ProbeParams)
    (hf : s.stopFlag = false) (hc : s.inflight.contains i = true) :
    completeStep s i p = runNextStep
      { s with
        records := s.records.map fun c =>
          if c.id = i then
            applyOutcome c (testConfigModel c s.timeout p.latRand p.failRand p.speedRand) p.time
          else c,
        inflight := s.inflight.erase i } := by
  unfold completeStep
  rw [if_pos hc, if_neg (by simp [hf])]

/-- From any mid-run state with a clear flag and at least one in-flight
worker, some sequence of probe completions brings the scheduler to the
finished state. -/
theorem drain_exists : ∀ (n : Nat) (s : SchedState), s.stopFlag = false →
    s.isTesting = true → s.inflight ≠ [] → s.queue.length + s.inflight.length ≤ n →
    ∃ evs : List SchedEvent, (schedRun s evs).isTesting = false := by
  intro n
  induction n with
  | zero =>
    intro s _ _ hne hle
    have := List.length_pos.mpr hne
    omega
  | succ n ih =>
    intro s hf hT hne hle
    obtain ⟨j, tl, hj⟩ := List.exists_cons_of_ne_nil hne
    have hcont : s.inflight.contains j = true := by
      rw [List.contains_iff_exists_mem_beq]
      exact ⟨j, by simp [hj], by simp⟩
    have hschedstep : schedStep s (SchedEvent.complete j probeFail)
        = completeStep s j probeFail := rfl
    have herase : s.inflight.erase j = tl := by
      rw [hj, List.erase_cons_head]
    obtain ⟨t, ht1, ht2, ht3, ht4, ht5⟩ :
        ∃ t : SchedState, completeStep s j probeFail = runNextStep t ∧
          t.stopFlag = false ∧ t.isTesting = s.isTesting ∧ t.queue = s.queue ∧
          t.inflight = tl :=
      ⟨{ s with
          records := s.records.map fun c =>
            if c.id = j then
              applyOutcome c
                (testConfigModel c s.timeout probeFail.latRand probeFail.failRand
                  probeFail.speedRand) probeFail.time
            else c,
          inflight := s.inflight.erase j },
        completeStep_eq s j probeFail hf hcont, hf, rfl, rfl, herase⟩
    have hlen1 : s.inflight.length = tl.length + 1 := by simp [hj]
    by_cases hq : s.queue.isEmpty = true
    · by_cases he : tl = []
      · refine ⟨[SchedEvent.complete j probeFail], ?_⟩
        show (schedStep s (SchedEvent.complete j probeFail)).isTesting = false
        rw [hschedstep, ht1,
          runNextStep_finish t ht2 (by rw [ht4]; exact hq) (by simp [ht5, he])]
      · have hbusy := runNextStep_busy t ht2 (by rw [ht4]; exact hq) (by simp [ht5, he])
        obtain ⟨evs, hevs⟩ := ih t ht2 (by rw [ht3]; exact hT) (by rw [ht5]; exact he)
          (by rw [ht4, ht5]; omega)
        refine ⟨SchedEvent.complete j probeFail :: evs, ?_⟩
        show (List.foldl schedStep
            (schedStep s (SchedEvent.complete j probeFail)) evs).isTesting = false
        rw [hschedstep, ht1, hbusy]
        exact hevs
    · have hqne : s.queue ≠ [] := fun hnil => hq (List.isEmpty_iff.mpr hnil)
      obtain ⟨q, qr, hqe⟩ := List.exists_cons_of_ne_nil hqne
      have hlen2 : s.queue.length = qr.length + 1 := by simp [hqe]
      have hpop := runNextStep_pop t ht2 (by rw [ht4]; exact hq)
      obtain ⟨evs, hevs⟩ := ih
        { t with queue := t.queue.tail,
                 inflight := t.inflight ++ t.queue.head?.toList }
        ht2 (by show t.isTesting = true; rw [ht3]; exact hT)
        (by show t.inflight ++ t.queue.head?.toList ≠ []
            rw [ht5, ht4, hqe]
            simp)
        (by show (t.queue.tail).length + (t.inflight ++ t.queue.head?.toList).length ≤ n
            rw [ht5, ht4, hqe]
            simp only [List.tail_cons, List.head?_cons, Option.toList_some,
              List.length_append, List.length_cons, List.length_nil]
            omega)
      refine ⟨SchedEvent.complete j probeFail :: evs, ?_⟩
      show (List.foldl schedStep
          (schedStep s (SchedEvent.complete j probeFail)) evs).isTesting = false
      rw [hschedstep, ht1, hpop]
      exact hevs

/-- The start of a manual run establishes the run invariant, provided no
record was already stuck in Testing. -/
theorem initScheduler_inv (records view : List ProxyConfig) (conc : Nat) (timeout : Int)
    (h : ∀ c ∈ records, c.status ≠ Status.Testing) :
    SchedInv (initScheduler records view conc timeout) := by
  unfold initScheduler
  obtain ⟨b1, b2, b3, b4, b5⟩ := launchLoopF_basic conc 0
    { timeout := timeout, stopFlag := false, isTesting := true,
      queue := (candidatesOf view).map (·.id), inflight := [],
      records := records.map fun c =>
        if (candidatesOf view).any fun ct => ct.id = c.id then { c with status := Status.Testing }
        else c } rfl
  constructor
  · intro hIT
    rw [b2] at hIT
    exact Bool.noConfusion hIT
  · intro hfl c hc hct
    rw [b3] at hc
    refine (b5 c.id).mpr (Or.inl ?_)
    simp only [List.mem_map] at hc
    obtain ⟨a, ha, rfl⟩ := hc
    by_cases hid : ((candidatesOf view).any fun ct => ct.id = a.id) = true
    · rw [if_pos hid]
      simp only [List.any_eq_true, decide_eq_true_eq] at hid
      obtain ⟨ct, hct2, hide⟩ := hid
      show a.id ∈ (candidatesOf view).map (·.id)
      exact hide ▸ List.mem_map_of_mem _ hct2
    · rw [if_neg hid] at hct
      exact absurd hct (h a ha)

/-! ## C3: cancellation leaves no record stuck in Testing -/

/-- C3.  For every manual run started on an inventory with no Testing
records and every interleaving of probe completions and stop requests:
whenever the scheduler reports it is no longer testing (which is exactly
when all in-flight probes have finished, after a stop or a normal drain),
no record is left in status Testing — any still-Testing record has been
reverted to Untested. -/
theorem c3_cancellation_no_stuck_testing (records view : List ProxyConfig) (conc : Nat)
    (timeout : Int) (evs : List SchedEvent)
    (hstart : ∀ c ∈ records, c.status ≠ Status.Testing)
    (hstopped : (schedRun (initScheduler records view conc timeout) evs).isTesting = false) :
    ∀ c ∈ (schedRun (initScheduler records view conc timeout) evs).records,
      c.status ≠ Status.Testing :=
  (schedRun_inv (initScheduler_inv records view conc timeout hstart) evs).1 hstopped

/-- C3 witness: one untested record, concurrency 1; stop is requested and
then the in-flight probe finishes.  The scheduler reports stopped and the
record is back to Untested, not Testing. -/
theorem c3_cancellation_no_stuck_testing_witness :
    (schedRun (initScheduler [sampleUntested] [sampleUntested] 1 3000)
        [SchedEvent.stop, SchedEvent.complete "a" probeFail]).isTesting = false ∧
    (∀ c ∈ (schedRun (initScheduler [sampleUntested] [sampleUntested] 1 3000)
        [SchedEvent.stop, SchedEvent.complete "a" probeFail]).records,
      c.status ≠ Status.Testing) ∧
    (schedRun (initScheduler [sampleUntested] [sampleUntested] 1 3000)
        [SchedEvent.stop, SchedEvent.complete "a" probeFail]).records.map (·.status)
      = [Status.Untested] := by
  refine ⟨by decide, ?_, by decide⟩
  exact c3_cancellation_no_stuck_testing [sampleUntested] [sampleUntested] 1 3000
    [SchedEvent.stop, SchedEvent.complete "a" probeFail] (by decide) (by decide)

/-! ## C4: worker-count bounds (corrected) -/

/-- C4 counterexample: concurrency is not clamped to 1.  With the setting
at 0 and one candidate, the scheduler marks the record Testing but
launches no worker, and the run never reports finished — even a stop
request cannot terminate it, and the record stays stuck in Testing. -/
theorem c4_zero_concurrency_counterexample :
    (candidatesOf [sampleUntested]).length = 1 ∧
    (initScheduler [sampleUntested] [sampleUntested] 0 3000).inflight.length = 0 ∧
    (initScheduler [sampleUntested] [sampleUntested] 0 3000).isTesting = true ∧
    (schedRun (initScheduler [sampleUntested] [sampleUntested] 0 3000)
        [SchedEvent.stop, SchedEvent.complete "a" probeFail]).isTesting = true ∧
    (schedRun (initScheduler [sampleUntested] [sampleUntested] 0 3000)
        [SchedEvent.stop, SchedEvent.complete "a" probeFail]).records.map (·.status)
      = [Status.Testing] := by
  decide

/-- C4 (amended).  There is no clamping of the concurrency setting.  For
every manual run over a non-empty candidate set with configured
concurrency at least 1, the scheduler launches at least one worker, the
number of in-flight workers never exceeds the configured concurrency at
any point of any trace, and some completion sequence brings the run to the
finished state.  (With concurrency 0 no worker is launched and the run
never finishes; see the counterexample.) -/
theorem c4_worker_bounds_amended (records view : List ProxyConfig) (conc : Nat)
    (timeout : Int) (hconc : 1 ≤ conc) (hcand : candidatesOf view ≠ []) :
    1 ≤ (initScheduler records view conc timeout).inflight.length ∧
    (∀ evs : List SchedEvent,
        (schedRun (initScheduler records view conc timeout) evs).inflight.length ≤ conc) ∧
    (∃ evs : List SchedEvent,
        (schedRun (initScheduler records view conc timeout) evs).isTesting = false) := by
  have hql : 0 < ((candidatesOf view).map (·.id)).length := by
    rw [List.length_map]
    exact List.length_pos.mpr hcand
  have hfirst : 1 ≤ (initScheduler records view conc timeout).inflight.length := by
    unfold initScheduler
    exact launchLoopF_first conc _ rfl hql (by omega) rfl
  have hle : (initScheduler records view conc timeout).inflight.length ≤ conc := by
    unfold initScheduler
    have := launchLoopF_inflight_le conc 0
      { timeout := timeout, stopFlag := false, isTesting := true,
        queue := (candidatesOf view).map (·.id), inflight := [],
        records := records.map fun c =>
          if (candidatesOf view).any fun ct => ct.id = c.id then
            { c with status := Status.Testing }
          else c }
    simpa using this
  obtain ⟨b1, b2, b3, b4, b5⟩ := launchLoopF_basic conc 0
    { timeout := timeout, stopFlag := false, isTesting := true,
      queue := (candidatesOf view).map (·.id), inflight := [],
      records := records.map fun c =>
        if (candidatesOf view).any fun ct => ct.id = c.id then { c with status := Status.Testing }
        else c } rfl
  refine ⟨hfirst, ?_, ?_⟩
  · intro evs
    exact Nat.le_trans (schedRun_inflight_le _ evs) hle
  · refine drain_exists
      ((initScheduler records view conc timeout).queue.length
        + (initScheduler records view conc timeout).inflight.length)
      (initScheduler records view conc timeout) ?_ ?_ ?_ (Nat.le_refl _)
    · exact b1
    · exact b2
    · intro hnil
      rw [hnil] at hfirst
      simp at hfirst

/-- C4 witness: one untested record with concurrency 2 launches one
worker, stays within the bound along a trace, and can finish. -/
theorem c4_worker_bounds_amended_witness :
    1 ≤ (initScheduler [sampleUntested] [sampleUntested] 2 3000).inflight.length ∧
    (schedRun (initScheduler [sampleUntested] [sampleUntested] 2 3000)
        [SchedEvent.stop]).inflight.length ≤ 2 ∧
    (∃ evs : List SchedEvent,
        (schedRun (initScheduler [sampleUntested] [sampleUntested] 2 3000)
          evs).isTesting = false) := by
  have h := c4_worker_bounds_amended [sampleUntested] [sampleUntested] 2 3000
    (by norm_num) (by decide)
  exact ⟨h.1, h.2.1 [SchedEvent.stop], h.2.2⟩

end ProxyTester
